import Mathlib

/-!
Verification development for the saloon-manager session/pricing core
(`src/saloon-manager.py`, classes `Session` and `Table`).

Modelling conventions:
* `QDateTime` instants are integer seconds (`a.secsTo b = b - a`,
  `a.addSecs s = a + s`); the ISO-8601 strings stored in a `Session` are
  second-precision and in bijection with these integers, so the stored
  timestamps are modelled by the integers themselves.
* Python floats are modelled as `ℚ`; Python's `round(x, 2)` is
  round-half-to-even at two decimal places (`round2`).
* `QDateTime.currentDateTime()` becomes an explicit `now : Int` argument
  to each operation.
* Mutation of a `Table` object becomes explicit state passing; a method
  that can raise returns the exception (as `Except`) together with the
  object state after the call.
-/

namespace SaloonManager

/-- Round-half-to-even of a rational to an integer (the behaviour of
Python's builtin `round` at rationals). -/
def roundHalfEven (q : ℚ) : Int :=
  let f : Int := Int.floor q
  let r : ℚ := q - (f : ℚ)
  if r < 1/2 then f
  else if 1/2 < r then f + 1
  else if f % 2 = 0 then f else f + 1

/-- Python's `round(x, 2)`: round to two decimal places, ties to even. -/
def round2 (q : ℚ) : ℚ := ((roundHalfEven (q * 100) : Int) : ℚ) / 100

/-- Source constant `SINGLE_PLAYER_MULTIPLIER = 0.5`. -/
def SINGLE_PLAYER_MULTIPLIER : ℚ := 1/2

/-- The `Session` dataclass: one finalized (immutable) session record.
`start`/`end` hold the instants whose ISO strings the source stores. -/
structure Session where
  start : Int
  «end» : Int
  seconds : Int
  price : ℚ
  member : Bool
  players : Int
  member_players : Int
  paying_players : Int
deriving DecidableEq, Repr

/-- The `Table` dataclass: one billable resource with its live timer
fields and its append-only history. -/
structure Table where
  name : String
  price_per_hour : ℚ
  table_type : String
  history : List Session
  start_time : Option Int
  paused_seconds : Int
  paused : Bool
  current_players : Int
  current_member_players : Int
  current_paying_players : Int
deriving DecidableEq, Repr

/-- A freshly constructed `Table(name, price_per_hour, table_type)`,
with the dataclass defaults for every other field. -/
def Table.init (name : String) (price_per_hour : ℚ) (table_type : String) : Table :=
  { name := name
    price_per_hour := price_per_hour
    table_type := table_type
    history := []
    start_time := none
    paused_seconds := 0
    paused := false
    current_players := 2
    current_member_players := 0
    current_paying_players := 2 }

/-- `Table.is_running`: a session is open and not paused. -/
def Table.is_running (t : Table) : Bool :=
  t.start_time.isSome && !t.paused

/-- `Table.start(member_players, paying_players)`: guarded by
`if self.start_time is None`; otherwise the call falls through with no
effect. -/
def Table.start (t : Table) (now : Int) (member_players paying_players : Int) : Table :=
  if t.start_time = none then
    { t with
      start_time := some now
      paused_seconds := 0
      paused := false
      current_players := member_players + paying_players
      current_member_players := member_players
      current_paying_players := paying_players }
  else t

/-- `Table.pause`: guarded by `if self.start_time and not self.paused`. -/
def Table.pause (t : Table) (now : Int) : Table :=
  match t.start_time, t.paused with
  | some ts, false =>
    { t with
      paused_seconds := t.paused_seconds + (now - ts)
      start_time := none
      paused := true }
  | _, _ => t

/-- `Table.resume`: guarded by `if self.paused`. -/
def Table.resume (t : Table) (now : Int) : Table :=
  if t.paused then { t with start_time := some now, paused := false } else t

/-- `Table.stop`: raises `RuntimeError("Timer not running")` when no
session is open and the table is not paused; otherwise computes the
elapsed seconds, prices them, appends the new `Session` to the history
and resets the live fields to the dataclass defaults.  The first
component is the returned session (or the exception), the second the
state of the object after the call. -/
def Table.stop (t : Table) (now : Int) : Except String Session × Table :=
  if t.start_time = none ∧ t.paused = false then
    (.error "Timer not running", t)
  else
    let total_secs : Int :=
      if t.paused then t.paused_seconds
      else t.paused_seconds + (now - t.start_time.getD now)
    let price : ℚ :=
      if t.current_paying_players = 0 then 0
      else
        let total_cost : ℚ := ((total_secs : ℚ) / 3600) * t.price_per_hour
        if t.current_paying_players = 1 then total_cost * SINGLE_PLAYER_MULTIPLIER
        else total_cost / (t.current_paying_players : ℚ)
    let session : Session :=
      { start := t.start_time.getD now - total_secs
        «end» := now
        seconds := total_secs
        price := round2 price
        member := decide (t.current_member_players > 0)
        players := t.current_players
        member_players := t.current_member_players
        paying_players := t.current_paying_players }
    (.ok session,
      { t with
        history := t.history ++ [session]
        start_time := none
        paused := false
        paused_seconds := 0
        current_players := 2
        current_member_players := 0
        current_paying_players := 2 })

/-- Primitive JSON values appearing in the persisted records. -/
inductive JPrim where
  | str : String → JPrim
  | int : Int → JPrim
  | num : ℚ → JPrim
  | bool : Bool → JPrim
deriving DecidableEq, Repr

/-- A serialized session record: the dict produced by `asdict(session)`. -/
abbrev JDict := List (String × JPrim)

/-- A value of the serialized table record: either a primitive or the
`history` array of session dicts. -/
inductive JVal where
  | prim : JPrim → JVal
  | arr : List JDict → JVal
deriving DecidableEq, Repr

/-- Dictionary lookup (`d[k]` / `d.get(k)`): first binding of the key. -/
def lookup {α : Type} : List (String × α) → String → Option α
  | [], _ => none
  | (k0, v) :: rest, k => if k0 = k then some v else lookup rest k

/-- The dict `asdict(s)` of a `Session`, in dataclass field order. -/
def Session.asdict (s : Session) : JDict :=
  [("start", .int s.start),
   ("end", .int s.«end»),
   ("seconds", .int s.seconds),
   ("price", .num s.price),
   ("member", .bool s.member),
   ("players", .int s.players),
   ("member_players", .int s.member_players),
   ("paying_players", .int s.paying_players)]

/-- `Table.to_json`: `asdict(self)` with `start_time`, `current_players`,
`current_member_players` and `current_paying_players` popped; the keys
appear in dataclass field order. -/
def Table.to_json (t : Table) : List (String × JVal) :=
  [("name", .prim (.str t.name)),
   ("price_per_hour", .prim (.num t.price_per_hour)),
   ("table_type", .prim (.str t.table_type)),
   ("history", .arr (t.history.map Session.asdict)),
   ("paused_seconds", .prim (.int t.paused_seconds)),
   ("paused", .prim (.bool t.paused))]

/-- The per-session decoding step of `Table.from_json`: the required
constructor arguments must be present (else `Session(**d)` raises, which
the model renders as `none`); missing `players`/`member_players`/
`paying_players` get the backward-compatibility defaults computed from
`d.get("member", False)`.  A present key bound to a value of the wrong
type also yields `none` (the dynamically typed source would store it
verbatim; no claim exercises such a record). -/
def sessionFromJson (d : JDict) : Option Session :=
  match lookup d "start", lookup d "end", lookup d "seconds",
        lookup d "price", lookup d "member" with
  | some (.int st), some (.int en), some (.int sec), some (.num pr), some (.bool mem) =>
    let players : Option Int :=
      match lookup d "players" with
      | none => some 2
      | some (.int p) => some p
      | some _ => none
    let member_players : Option Int :=
      match lookup d "member_players" with
      | none => some (if mem then 2 else 0)
      | some (.int p) => some p
      | some _ => none
    let paying_players : Option Int :=
      match lookup d "paying_players" with
      | none => some (if mem then 0 else 2)
      | some (.int p) => some p
      | some _ => none
    match players, member_players, paying_players with
    | some pl, some mp, some pp =>
      some { start := st, «end» := en, seconds := sec, price := pr, member := mem,
             players := pl, member_players := mp, paying_players := pp }
    | _, _, _ => none
  | _, _, _, _, _ => none

/-- The history-decoding loop of `Table.from_json`; any failing entry
aborts the whole decode. -/
def decodeSessions : List JDict → Option (List Session)
  | [] => some []
  | d :: rest =>
    match sessionFromJson d, decodeSessions rest with
    | some s, some more => some (s :: more)
    | _, _ => none

/-- `Table.from_json`: reads `name` and `price_per_hour` (required),
`table_type` defaulting to `"Billiard"`, decodes `history` defaulting to
`[]`, and builds the table through the dataclass constructor, so every
live field takes its dataclass default. -/
def Table.from_json (d : List (String × JVal)) : Option Table :=
  let hist : Option (List Session) :=
    match lookup d "history" with
    | none => some []
    | some (.arr ss) => decodeSessions ss
    | some _ => none
  let kind : Option String :=
    match lookup d "table_type" with
    | none => some "Billiard"
    | some (.prim (.str k)) => some k
    | some _ => none
  match lookup d "name", lookup d "price_per_hour", hist, kind with
  | some (.prim (.str n)), some (.prim (.num r)), some h, some k =>
    some { name := n
           price_per_hour := r
           table_type := k
           history := h
           start_time := none
           paused_seconds := 0
           paused := false
           current_players := 2
           current_member_players := 0
           current_paying_players := 2 }
  | _, _, _, _ => none

/-- Modelled from the spec, section 4.2 (Pricing Engine), as the
reference against which the code's pricing is compared: charge 0 when
`payingPlayers = 0`; otherwise `totalCost = (elapsedSeconds / 3600) *
hourlyRatePerHour`, halved for a single paying player and split evenly
for two or more. -/
def specPrice (elapsedSeconds : Int) (hourlyRatePerHour : ℚ) (payingPlayers : Int) : ℚ :=
  if payingPlayers = 0 then 0
  else
    let totalCost : ℚ := ((elapsedSeconds : ℚ) / 3600) * hourlyRatePerHour
    if payingPlayers = 1 then totalCost * (1/2)
    else totalCost / (payingPlayers : ℚ)

/-- A sequence of pause/resume toggles: each pair is one pause instant
followed by one resume instant. -/
def applyCycles (t : Table) : List (Int × Int) → Table
  | [] => t
  | (p, r) :: rest => applyCycles ((t.pause p).resume r) rest

/-- Sum of the lengths of the running intervals of a session started (or
last resumed) at `t0`, paused at the first and resumed at the second
component of each pair, and ending (stopped or finally paused) at
`tEnd`. -/
def runningTime (t0 : Int) : List (Int × Int) → Int → Int
  | [], tEnd => tEnd - t0
  | (p, r) :: rest, tEnd => (p - t0) + runningTime r rest tEnd

/-- One host-issued operation on a table. -/
inductive Op where
  | startOp : Int → Int → Op
  | pauseOp : Op
  | resumeOp : Op
  | stopOp : Op
deriving DecidableEq, Repr

/-- Effect of one operation on the table state at instant `now`
(a failing `stop` leaves the state unchanged). -/
def Table.applyOp (t : Table) (o : Op) (now : Int) : Table :=
  match o with
  | .startOp m p => t.start now m p
  | .pauseOp => t.pause now
  | .resumeOp => t.resume now
  | .stopOp => (t.stop now).2

/-- Run a timed sequence of operations. -/
def Table.run (t : Table) : List (Op × Int) → Table
  | [] => t
  | (o, now) :: rest => (t.applyOp o now).run rest

/-- The instants of a timed operation sequence are nondecreasing, and
the first is not before `prev` (the real wall clock never runs
backwards). -/
def Chrono : Int → List (Op × Int) → Prop
  | _, [] => True
  | prev, (_, now) :: rest => prev ≤ now ∧ Chrono now rest

/-- State-consistency invariant at wall-clock instant `now`: paused
implies no start timestamp, accumulated paused seconds are nonnegative,
and any start timestamp is not in the future. -/
def StateInv (t : Table) (now : Int) : Prop :=
  (t.paused = true → t.start_time = none)
  ∧ 0 ≤ t.paused_seconds
  ∧ (∀ ts, t.start_time = some ts → ts ≤ now)

/-- The resource is Idle: no open session and not paused. -/
def IsIdle (t : Table) : Prop := t.start_time = none ∧ t.paused = false

/-- The resource is Running: an open session with a start timestamp. -/
def IsRunning (t : Table) : Prop := (∃ ts, t.start_time = some ts) ∧ t.paused = false

/-- The resource is Paused: no start timestamp, pause flag set. -/
def IsPausedState (t : Table) : Prop := t.start_time = none ∧ t.paused = true

/-- The instant of the last operation of a timed sequence (or `now` for
the empty sequence). -/
def lastInstant (now : Int) : List (Op × Int) → Int
  | [] => now
  | (_, n) :: rest => lastInstant n rest

/-- A table paused mid-session: started at instant 0 with 1 member and
2 paying players, paused at instant 5. -/
def tPausedExample : Table := ((Table.init "T" 10 "Billiard").start 0 1 2).pause 5

/-- A table with a session running: started at instant 3 with 1 member
and 1 paying player. -/
def tRunningExample : Table := (Table.init "E" 4 "Snooker").start 3 1 1

/-- A concrete timed operation sequence with nondecreasing instants
(the final `stop` hits an idle table and fails). -/
def opsExample : List (Op × Int) :=
  [(.startOp 1 1, 0), (.pauseOp, 5), (.resumeOp, 7), (.stopOp, 12), (.stopOp, 12)]

/-- Decoding a session dict produced by `asdict` recovers the session. -/
theorem sessionFromJson_asdict (s : Session) : sessionFromJson (Session.asdict s) = some s := rfl

/-- Decoding the encoded history array recovers the history. -/
theorem decodeSessions_map (l : List Session) :
    decodeSessions (l.map Session.asdict) = some l := by
  induction l with
  | nil => rfl
  | cons s rest ih => simp [decodeSessions, sessionFromJson_asdict, ih]

/-- Deserializing a serialized table yields the table with its
descriptive fields and history intact and every live field reset to the
dataclass default. -/
theorem from_json_to_json (t : Table) :
    Table.from_json (Table.to_json t)
      = some { name := t.name
               price_per_hour := t.price_per_hour
               table_type := t.table_type
               history := t.history
               start_time := none
               paused_seconds := 0
               paused := false
               current_players := 2
               current_member_players := 0
               current_paying_players := 2 } := by
  simp [Table.from_json, Table.to_json, lookup, decodeSessions_map]

/-- C9: serialization round-trip — deserializing the serialized record
of any table with any finite history yields a table with an equal
history sequence (field for field, in order) and equal name, hourly
rate and kind. -/
theorem C9_roundtrip (t : Table) :
    ∃ t', Table.from_json (Table.to_json t) = some t'
      ∧ t'.history = t.history
      ∧ t'.name = t.name
      ∧ t'.price_per_hour = t.price_per_hour
      ∧ t'.table_type = t.table_type :=
  ⟨_, from_json_to_json t, rfl, rfl, rfl, rfl⟩

/-- C6 counterexample: the serialized record of a paused mid-session
table carries the live-session keys `paused` and `paused_seconds`, which
are not among the four claimed keys `name`, `price_per_hour`
(hourlyRate), `table_type` (kind) and `history` — so the record does not
contain exactly those four fields. -/
theorem C6_counterexample :
    "paused" ∈ (Table.to_json tPausedExample).map Prod.fst
    ∧ "paused_seconds" ∈ (Table.to_json tPausedExample).map Prod.fst
    ∧ "paused" ∉ (["name", "price_per_hour", "table_type", "history"] : List String)
    ∧ "paused_seconds" ∉ (["name", "price_per_hour", "table_type", "history"] : List String) := by
  refine ⟨?_, ?_, ?_, ?_⟩ <;> decide

/-- C6 (amended): the serialized record of a table contains exactly the
keys `name`, `price_per_hour`, `table_type`, `history`,
`paused_seconds` and `paused`; the `start_time` and player-count live
fields are never serialized, and deserializing any serialized table
yields an Idle table (start timestamp cleared, pause flag cleared,
accumulated paused seconds zero) with the completed history kept. -/
theorem C6_serialization_drops_live_session (t : Table) :
    (Table.to_json t).map Prod.fst
      = ["name", "price_per_hour", "table_type", "history", "paused_seconds", "paused"]
    ∧ "start_time" ∉ (Table.to_json t).map Prod.fst
    ∧ "current_players" ∉ (Table.to_json t).map Prod.fst
    ∧ "current_member_players" ∉ (Table.to_json t).map Prod.fst
    ∧ "current_paying_players" ∉ (Table.to_json t).map Prod.fst
    ∧ ∃ t', Table.from_json (Table.to_json t) = some t'
        ∧ IsIdle t'
        ∧ t'.paused_seconds = 0
        ∧ t'.history = t.history := by
  have hkeys : (Table.to_json t).map Prod.fst
      = ["name", "price_per_hour", "table_type", "history", "paused_seconds", "paused"] := rfl
  exact ⟨hkeys, by rw [hkeys]; decide, by rw [hkeys]; decide, by rw [hkeys]; decide,
         by rw [hkeys]; decide, _, from_json_to_json t, ⟨rfl, rfl⟩, rfl, rfl⟩

/-- C2 counterexample: a Paused resource is not Idle, yet `start` is not
a no-op on it — the guard `if self.start_time is None` also lets a
paused table (whose `start_time` is cleared) through, discarding the
paused session. -/
theorem C2_counterexample :
    IsPausedState tPausedExample ∧ tPausedExample.start 7 3 4 ≠ tPausedExample :=
  ⟨⟨rfl, rfl⟩, by decide⟩

/-- C2 (amended): `start` is a silent no-op exactly on a resource whose
start timestamp is set (a Running resource), leaving every field
unchanged; in particular, starting twice in a row from Idle changes
state only on the first call.  (On a Paused resource `start` does
proceed and begins a fresh session.) -/
theorem C2_start_noop (t : Table) (now now' m p m' p' : Int) :
    (t.start_time ≠ none → t.start now m p = t)
    ∧ (t.start_time = none → (t.start now m p).start now' m' p' = t.start now m p) := by
  constructor
  · intro h
    simp [Table.start, h]
  · intro h
    simp [Table.start, h]

/-- Witness for C2_start_noop: a second `start` right after a first one
is a no-op, and `start` on a running table is a no-op. -/
theorem C2_start_noop_witness :
    (tRunningExample.start 9 7 7 = tRunningExample)
    ∧ (((Table.init "W" 3 "Darts").start 0 1 1).start 5 4 4
        = (Table.init "W" 3 "Darts").start 0 1 1) :=
  ⟨(C2_start_noop tRunningExample 9 9 7 7 7 7).1 (by decide),
   (C2_start_noop (Table.init "W" 3 "Darts") 0 5 1 1 4 4).2 rfl⟩

/-- C4: `stop` fails (raising `RuntimeError`, the spec's
InvalidStateError) exactly when the table is Idle — no start timestamp
and not paused — and a failing `stop` leaves the table, in particular
its history, unchanged. -/
theorem C4_stop_error_iff (t : Table) (now : Int) :
    ((∃ e, (t.stop now).1 = .error e) ↔ t.start_time = none ∧ t.paused = false)
    ∧ (t.start_time = none ∧ t.paused = false →
        (t.stop now).1 = .error "Timer not running"
        ∧ (t.stop now).2 = t
        ∧ (t.stop now).2.history = t.history) := by
  by_cases h : t.start_time = none ∧ t.paused = false
  · simp [Table.stop, h]
  · simp [Table.stop, h]

/-- Witness for C4_stop_error_iff: stopping a freshly constructed (Idle)
table fails with the error and leaves it unchanged. -/
theorem C4_stop_error_iff_witness :
    ((Table.init "W" 3 "Darts").stop 5).1 = .error "Timer not running"
    ∧ ((Table.init "W" 3 "Darts").stop 5).2 = Table.init "W" 3 "Darts" :=
  ⟨((C4_stop_error_iff (Table.init "W" 3 "Darts") 5).2 ⟨rfl, rfl⟩).1,
   ((C4_stop_error_iff (Table.init "W" 3 "Darts") 5).2 ⟨rfl, rfl⟩).2.1⟩

/-- C7: the history is append-only — `start`, `pause` and `resume`
leave it unchanged in every state, and a successful `stop` appends
exactly the session it returns at the end, keeping all earlier entries. -/
theorem C7_history_append_only (t : Table) (now m p : Int) :
    (t.start now m p).history = t.history
    ∧ (t.pause now).history = t.history
    ∧ (t.resume now).history = t.history
    ∧ (¬(t.start_time = none ∧ t.paused = false) →
        ∃ s, (t.stop now).1 = .ok s ∧ (t.stop now).2.history = t.history ++ [s]) := by
  refine ⟨?_, ?_, ?_, ?_⟩
  · by_cases h : t.start_time = none <;> simp [Table.start, h]
  · rcases hst : t.start_time with _ | ts <;> rcases hp : t.paused <;>
      simp [Table.pause, hst, hp]
  · by_cases h : t.paused <;> simp [Table.resume, h]
  · intro h
    simp only [Table.stop, if_neg h]
    exact ⟨_, rfl, rfl⟩

/-- Witness for C7_history_append_only: stopping a running table appends
the returned session to its history. -/
theorem C7_history_append_only_witness :
    ∃ s, (tRunningExample.stop 10).1 = .ok s
      ∧ (tRunningExample.stop 10).2.history = tRunningExample.history ++ [s] :=
  (C7_history_append_only tRunningExample 10 0 0).2.2.2 (by decide)

/-- C1: evaluation of the code at the failing input.  A session started
at instant 0 and stopped at instant 10 while still Running is recorded
with `start = -10` (the code takes `self.start_time.addSecs(-total_secs)`
when `start_time` is set, instead of `end_time.addSecs(-total_secs)`),
so the recorded start differs from `endTime - durationSeconds = 0`. -/
theorem C1_stop_recorded_start_bug :
    ∃ s, (((Table.init "T" 10 "Billiard").start 0 0 2).stop 10).1 = .ok s
      ∧ s.«end» = 10 ∧ s.seconds = 10 ∧ s.start = -10
      ∧ s.start ≠ s.«end» - s.seconds := by
  refine ⟨_, rfl, ?_, ?_, ?_, ?_⟩ <;> decide

/-- C3: the charge computed at `stop` equals the spec's pricing function
rounded to two decimals — for every stoppable table the session's price
is `round2 (specPrice elapsed rate payingPlayers)`; the spec function
rounds to 0 whenever `payingPlayers = 0`; the spec's worked examples
(elapsed 3600 s, rate 10, one resp. two paying players, both giving
5.00) hold on the code; and the member-player count never affects the
charge. -/
theorem C3_pricing :
    (∀ (t : Table) (now : Int), ¬(t.start_time = none ∧ t.paused = false) →
      ∃ s, (t.stop now).1 = .ok s
        ∧ s.price = round2 (specPrice s.seconds t.price_per_hour t.current_paying_players))
    ∧ (∀ (elapsed : Int) (rate : ℚ), round2 (specPrice elapsed rate 0) = 0)
    ∧ (∃ s, (((Table.init "T" 10 "Billiard").start 0 0 1).stop 3600).1 = .ok s
        ∧ s.paying_players = 1 ∧ s.price = 5)
    ∧ (∃ s, (((Table.init "T" 10 "Billiard").start 0 0 2).stop 3600).1 = .ok s
        ∧ s.paying_players = 2 ∧ s.price = 5)
    ∧ (∀ (t : Table) (now m : Int),
        (({ t with current_member_players := m }).stop now).1.map Session.price
          = ((t.stop now).1.map Session.price)) := by
  refine ⟨?_, ?_, ?_, ?_, ?_⟩
  · intro t now h
    simp only [Table.stop, if_neg h]
    refine ⟨_, rfl, ?_⟩
    simp only [specPrice, SINGLE_PLAYER_MULTIPLIER]
  · intro elapsed rate
    norm_num [specPrice, round2, roundHalfEven]
  · refine ⟨_, rfl, by decide, ?_⟩
    norm_num [Table.stop, Table.start, Table.init, round2, roundHalfEven,
      SINGLE_PLAYER_MULTIPLIER]
  · refine ⟨_, rfl, by decide, ?_⟩
    norm_num [Table.stop, Table.start, Table.init, round2, roundHalfEven,
      SINGLE_PLAYER_MULTIPLIER]
  · intro t now m
    by_cases h : t.start_time = none ∧ t.paused = false
    · simp only [Table.stop]
      rw [if_pos h, if_pos h]
    · simp only [Table.stop]
      rw [if_neg h, if_neg h]
      rfl

/-- Witness for C3_pricing: the paused example table stops with a price
equal to the rounded spec price. -/
theorem C3_pricing_witness :
    ∃ s, (tPausedExample.stop 9).1 = .ok s
      ∧ s.price = round2 (specPrice s.seconds tPausedExample.price_per_hour
          tPausedExample.current_paying_players) :=
  C3_pricing.1 tPausedExample 9 (by decide)

/-- C10: the state machine stores arbitrary integer player counts
verbatim — `start` on an Idle table records any `m`, `p`, including
negative ones — and stopping a session started with `payingPlayers = -1`
after 3600 s at rate 10 yields a strictly negative charge of -10. -/
theorem C10_no_player_validation :
    (∀ (t : Table) (now m p : Int), t.start_time = none →
      (t.start now m p).current_member_players = m
      ∧ (t.start now m p).current_paying_players = p
      ∧ (t.start now m p).current_players = m + p
      ∧ (t.start now m p).start_time = some now)
    ∧ (∃ s, (((Table.init "T" 10 "Billiard").start 0 0 (-1)).stop 3600).1 = .ok s
        ∧ s.paying_players = -1 ∧ s.price = -10 ∧ s.price < 0) := by
  constructor
  · intro t now m p h
    simp [Table.start, h]
  · refine ⟨_, rfl, by decide, ?_, ?_⟩
    · norm_num [Table.stop, Table.start, Table.init, round2, roundHalfEven,
        SINGLE_PLAYER_MULTIPLIER]
    · norm_num [Table.stop, Table.start, Table.init, round2, roundHalfEven,
        SINGLE_PLAYER_MULTIPLIER]

/-- Witness for C10_no_player_validation: negative counts are stored
verbatim on a concrete idle table. -/
theorem C10_no_player_validation_witness :
    ((Table.init "W" 5 "Darts").start 2 (-3) (-4)).current_member_players = -3
    ∧ ((Table.init "W" 5 "Darts").start 2 (-3) (-4)).current_paying_players = -4
    ∧ ((Table.init "W" 5 "Darts").start 2 (-3) (-4)).current_players = -3 + -4
    ∧ ((Table.init "W" 5 "Darts").start 2 (-3) (-4)).start_time = some 2 :=
  C10_no_player_validation.1 (Table.init "W" 5 "Darts") 2 (-3) (-4) rfl

/-- Stopping a running table at instant `now` charges the accumulated
paused seconds plus the seconds since the start timestamp. -/
theorem stop_seconds_running (t : Table) (now ts : Int)
    (h : t.start_time = some ts) (hp : t.paused = false) :
    ∃ s, (t.stop now).1 = .ok s ∧ s.seconds = t.paused_seconds + (now - ts) := by
  have hcond : ¬(t.start_time = none ∧ t.paused = false) := by simp [h]
  simp only [Table.stop, if_neg hcond]
  refine ⟨_, rfl, ?_⟩
  simp [h, hp]

/-- Stopping a paused table charges exactly the accumulated paused
seconds. -/
theorem stop_seconds_paused (t : Table) (now : Int) (hp : t.paused = true) :
    ∃ s, (t.stop now).1 = .ok s ∧ s.seconds = t.paused_seconds := by
  have hcond : ¬(t.start_time = none ∧ t.paused = false) := by simp [hp]
  simp only [Table.stop, if_neg hcond]
  refine ⟨_, rfl, ?_⟩
  simp [hp]

/-- Running a sequence of pause/resume cycles on a running table keeps
it running, and the accumulated paused seconds plus the time since the
final resume equal the original accumulation plus the running-interval
sum. -/
theorem applyCycles_spec (cycles : List (Int × Int)) :
    ∀ (t : Table) (ts : Int), t.start_time = some ts → t.paused = false →
      ∃ ts', (applyCycles t cycles).start_time = some ts'
        ∧ (applyCycles t cycles).paused = false
        ∧ ∀ tEnd : Int, (applyCycles t cycles).paused_seconds + (tEnd - ts')
            = t.paused_seconds + runningTime ts cycles tEnd := by
  induction cycles with
  | nil =>
    intro t ts h hp
    exact ⟨ts, h, hp, fun tEnd => by simp [applyCycles, runningTime]⟩
  | cons c rest ih =>
    obtain ⟨p, r⟩ := c
    intro t ts h hp
    have hstep : (t.pause p).resume r
        = { t with paused_seconds := t.paused_seconds + (p - ts),
                   start_time := some r, paused := false } := by
      simp [Table.pause, Table.resume, h, hp]
    rw [applyCycles, hstep]
    obtain ⟨ts', h1, h2, h3⟩ := ih
      { t with paused_seconds := t.paused_seconds + (p - ts),
               start_time := some r, paused := false } r rfl rfl
    refine ⟨ts', h1, h2, fun tEnd => ?_⟩
    rw [h3 tEnd]
    show t.paused_seconds + (p - ts) + runningTime r rest tEnd
        = t.paused_seconds + runningTime ts ((p, r) :: rest) tEnd
    rw [runningTime]
    ring

/-- C5: for every operation sequence start; (pause; resume)*; [pause];
stop at arbitrary clock instants, the recorded duration equals the sum
of the lengths of the running intervals — time spent paused contributes
nothing.  The first conjunct stops while Running (the last interval
ends at the stop instant); the second stops after a final pause (the
last interval ends at the pause instant). -/
theorem C5_time_conservation (tbl : Table) (m p t0 tp tEnd : Int)
    (cycles : List (Int × Int)) (h : tbl.start_time = none) :
    (∃ s, ((applyCycles (tbl.start t0 m p) cycles).stop tEnd).1 = .ok s
        ∧ s.seconds = runningTime t0 cycles tEnd)
    ∧ (∃ s, (((applyCycles (tbl.start t0 m p) cycles).pause tp).stop tEnd).1 = .ok s
        ∧ s.seconds = runningTime t0 cycles tp) := by
  have hst : (tbl.start t0 m p).start_time = some t0 := by simp [Table.start, h]
  have hpz : (tbl.start t0 m p).paused = false := by simp [Table.start, h]
  have hps : (tbl.start t0 m p).paused_seconds = 0 := by simp [Table.start, h]
  obtain ⟨ts', h1, h2, h3⟩ := applyCycles_spec cycles (tbl.start t0 m p) t0 hst hpz
  constructor
  · obtain ⟨s, hs1, hs2⟩ := stop_seconds_running _ tEnd ts' h1 h2
    refine ⟨s, hs1, ?_⟩
    have := h3 tEnd
    rw [hps] at this
    linarith [hs2, this]
  · have hBpause : (applyCycles (tbl.start t0 m p) cycles).pause tp
        = { applyCycles (tbl.start t0 m p) cycles with
            paused_seconds := (applyCycles (tbl.start t0 m p) cycles).paused_seconds
              + (tp - ts'),
            start_time := none, paused := true } := by
      simp [Table.pause, h1, h2]
    obtain ⟨s, hs1, hs2⟩ := stop_seconds_paused
      ((applyCycles (tbl.start t0 m p) cycles).pause tp) tEnd (by rw [hBpause])
    refine ⟨s, hs1, ?_⟩
    rw [hBpause] at hs2
    have := h3 tp
    rw [hps] at this
    have hs2' : s.seconds
        = (applyCycles (tbl.start t0 m p) cycles).paused_seconds + (tp - ts') := hs2
    linarith [hs2', this]

/-- Witness for C5_time_conservation: start at 0, pause at 10, resume at
20; stopping at 30 charges 20 running seconds, and pausing again at 25
before stopping at 30 charges 15. -/
theorem C5_time_conservation_witness :
    (∃ s, ((applyCycles ((Table.init "W" 0 "Darts").start 0 1 1) [(10, 20)]).stop 30).1 = .ok s
        ∧ s.seconds = runningTime 0 [(10, 20)] 30)
    ∧ (∃ s, (((applyCycles ((Table.init "W" 0 "Darts").start 0 1 1) [(10, 20)]).pause 25).stop 30).1
          = .ok s
        ∧ s.seconds = runningTime 0 [(10, 20)] 25) :=
  C5_time_conservation (Table.init "W" 0 "Darts") 1 1 0 25 30 [(10, 20)] rfl

/-- Every operation preserves the state-consistency invariant when the
clock does not run backwards. -/
theorem stateInv_step (t : Table) (o : Op) (now now' : Int)
    (h : StateInv t now) (hle : now ≤ now') : StateInv (t.applyOp o now') now' := by
  obtain ⟨h1, h2, h3⟩ := h
  have hmono : ∀ ts, t.start_time = some ts → ts ≤ now' :=
    fun ts hts => le_trans (h3 ts hts) hle
  cases o with
  | startOp m p =>
    by_cases hs : t.start_time = none
    · simp only [Table.applyOp, Table.start, if_pos hs]
      refine ⟨fun hp => by simp at hp, by simp, fun ts hts => ?_⟩
      simp only [Option.some.injEq] at hts
      omega
    · simp only [Table.applyOp, Table.start, if_neg hs]
      exact ⟨h1, h2, hmono⟩
  | pauseOp =>
    simp only [Table.applyOp]
    rcases hst : t.start_time with _ | ts <;> rcases hp : t.paused
    · simp only [Table.pause, hst, hp]
      exact ⟨h1, h2, hmono⟩
    · simp only [Table.pause, hst, hp]
      exact ⟨h1, h2, hmono⟩
    · simp only [Table.pause, hst, hp]
      refine ⟨fun _ => rfl, ?_, fun ts0 hts0 => by simp at hts0⟩
      have := hmono ts hst
      simp only []
      omega
    · simp only [Table.pause, hst, hp]
      exact ⟨h1, h2, hmono⟩
  | resumeOp =>
    simp only [Table.applyOp]
    rcases hp : t.paused
    · simp [Table.resume, hp]
      exact ⟨h1, h2, hmono⟩
    · simp only [Table.resume, hp, if_pos]
      refine ⟨fun hpp => by simp at hpp, h2, fun ts hts => ?_⟩
      simp only [Option.some.injEq] at hts
      omega
  | stopOp =>
    simp only [Table.applyOp]
    by_cases hs : t.start_time = none ∧ t.paused = false
    · simp only [Table.stop, if_pos hs]
      exact ⟨h1, h2, hmono⟩
    · simp only [Table.stop, if_neg hs]
      exact ⟨fun hp => by simp at hp, le_refl 0, fun ts hts => by simp at hts⟩

/-- Running a chronological operation sequence preserves the
state-consistency invariant. -/
theorem stateInv_run (ops : List (Op × Int)) :
    ∀ (t : Table) (now : Int), StateInv t now → Chrono now ops →
      StateInv (t.run ops) (lastInstant now ops) := by
  induction ops with
  | nil => exact fun t now h _ => h
  | cons hd rest ih =>
    obtain ⟨o, n⟩ := hd
    intro t now h hc
    exact ih _ n (stateInv_step t o now n h hc.1) hc.2

/-- C8: after any chronological operation sequence from a freshly
constructed (Idle) table, the pause flag set implies the start
timestamp is cleared, the accumulated paused seconds are nonnegative,
and the table is in exactly one of the states Idle, Running, Paused. -/
theorem C8_state_invariant (name : String) (rate : ℚ) (kind : String)
    (ops : List (Op × Int)) (now : Int) (hc : Chrono now ops) :
    (((Table.init name rate kind).run ops).paused = true →
        ((Table.init name rate kind).run ops).start_time = none)
    ∧ 0 ≤ ((Table.init name rate kind).run ops).paused_seconds
    ∧ (IsIdle ((Table.init name rate kind).run ops)
        ∨ IsRunning ((Table.init name rate kind).run ops)
        ∨ IsPausedState ((Table.init name rate kind).run ops))
    ∧ ¬(IsIdle ((Table.init name rate kind).run ops)
        ∧ IsRunning ((Table.init name rate kind).run ops))
    ∧ ¬(IsIdle ((Table.init name rate kind).run ops)
        ∧ IsPausedState ((Table.init name rate kind).run ops))
    ∧ ¬(IsRunning ((Table.init name rate kind).run ops)
        ∧ IsPausedState ((Table.init name rate kind).run ops)) := by
  have hinit : StateInv (Table.init name rate kind) now :=
    ⟨fun _ => rfl, le_refl 0, fun ts hts => by simp [Table.init] at hts⟩
  obtain ⟨h1, h2, _⟩ := stateInv_run ops (Table.init name rate kind) now hinit hc
  refine ⟨h1, h2, ?_, ?_, ?_, ?_⟩
  · rcases hst : ((Table.init name rate kind).run ops).start_time with _ | ts <;>
      rcases hp : ((Table.init name rate kind).run ops).paused
    · exact Or.inl ⟨hst, hp⟩
    · exact Or.inr (Or.inr ⟨hst, hp⟩)
    · exact Or.inr (Or.inl ⟨⟨ts, hst⟩, hp⟩)
    · exact absurd (h1 hp) (by simp [hst])
  · rintro ⟨⟨hn, -⟩, ⟨ts, hs⟩, -⟩
    rw [hn] at hs
    exact Option.noConfusion hs
  · rintro ⟨⟨-, hf⟩, ⟨-, ht⟩⟩
    rw [hf] at ht
    exact Bool.noConfusion ht
  · rintro ⟨⟨⟨ts, hs⟩, -⟩, ⟨hn, -⟩⟩
    rw [hn] at hs
    exact Option.noConfusion hs

/-- Witness for C8_state_invariant: the invariant holds after the
concrete chronological sequence `opsExample` from a fresh table. -/
theorem C8_state_invariant_witness :
    (((Table.init "W" 2 "Darts").run opsExample).paused = true →
        ((Table.init "W" 2 "Darts").run opsExample).start_time = none)
    ∧ 0 ≤ ((Table.init "W" 2 "Darts").run opsExample).paused_seconds
    ∧ (IsIdle ((Table.init "W" 2 "Darts").run opsExample)
        ∨ IsRunning ((Table.init "W" 2 "Darts").run opsExample)
        ∨ IsPausedState ((Table.init "W" 2 "Darts").run opsExample))
    ∧ ¬(IsIdle ((Table.init "W" 2 "Darts").run opsExample)
        ∧ IsRunning ((Table.init "W" 2 "Darts").run opsExample))
    ∧ ¬(IsIdle ((Table.init "W" 2 "Darts").run opsExample)
        ∧ IsPausedState ((Table.init "W" 2 "Darts").run opsExample))
    ∧ ¬(IsRunning ((Table.init "W" 2 "Darts").run opsExample)
        ∧ IsPausedState ((Table.init "W" 2 "Darts").run opsExample)) :=
  C8_state_invariant "W" 2 "Darts" opsExample 0 (by norm_num [Chrono, opsExample])

end SaloonManager
